import Mathlib

/-!
Verification of the Skyscrapers solver (files `algorithm.py` and `solveur.py`).

The board is an N×N grid of integer heights, 0 meaning "empty".  We embed the
Python code shallowly: boards are `List (List Int)`, in-place mutation becomes
explicit board passing (functions that mutate their argument return the new
board), and the recursive search carries an explicit fuel argument whose
sufficiency is proved separately.
-/

set_option autoImplicit false

/-- A game board: a list of rows, each a list of integer heights (0 = empty). -/
abbrev Board := List (List Int)

/-- `board[r][c]` with out-of-range reads defaulting (in the Python source all
reads are in range; the default never matters under the shape hypotheses). -/
def getCell (b : Board) (r c : Nat) : Int :=
  (b.getD r []).getD c 0

/-- `board[r][c] = v` (out-of-range writes are dropped, as `List.set` does). -/
def setCell (b : Board) (r c : Nat) (v : Int) : Board :=
  b.set r ((b.getD r []).set c v)

/-- The board is a well-formed N×N grid. -/
def Shape (n : Nat) (b : Board) : Prop :=
  b.length = n ∧ ∀ r < n, (b.getD r []).length = n

/-- Helper for `countVisible`: scan with current running maximum `m`,
counting the elements that strictly exceed every earlier one. -/
def countVisibleFrom (m : Int) : List Int → Nat
  | [] => 0
  | x :: xs => if m < x then countVisibleFrom x xs + 1 else countVisibleFrom m xs

/-- `count_visible` of `algorithm.py` (`SkyscraperValidator._respect_clues`):
the running maximum starts at -infinity, so the first element always counts. -/
def countVisible : List Int → Nat
  | [] => 0
  | x :: xs => countVisibleFrom x xs + 1

/-- The line-level clue check shared by `SkyscraperValidator._respect_clues`
(`algorithm.py`) and `SolveBoard.respect_clues_horiz` / `respect_clues_verti`
(`solveur.py`): if the line is full, both directed visibility counts must equal
the clues exactly; otherwise only `count ≤ startClue` is required. -/
def respectClues (values : List Int) (startClue endClue : Int) : Bool :=
  let startCount : Int := countVisible values
  if values.all (fun v => v != 0) then
    startCount == startClue && ((countVisible values.reverse : Int) == endClue)
  else
    decide (startCount ≤ startClue)

/-- The `Axis` enum of `algorithm.py`. -/
inductive Axis where
  | row : Axis
  | col : Axis
deriving DecidableEq

/-- The four clue arrays held by `SkyscraperValidator` / `SkyscraperSolver`. -/
structure Clues where
  left : List Int
  top : List Int
  right : List Int
  bottom : List Int

/-- `self.clues_len = len(top_clues)` in `SkyscraperValidator.__init__`. -/
def Clues.len (cl : Clues) : Nat := cl.top.length

/-- `SkyscraperValidator._respect_clues` (which also inlines `is_full`): select
the row or column values and its two clues, then run the line check. -/
def respectCluesAxis (cl : Clues) (b : Board) (index : Nat) : Axis → Bool
  | .row => respectClues (b.getD index []) (cl.left.getD index 0) (cl.right.getD index 0)
  | .col => respectClues ((List.range cl.len).map (fun r => getCell b r index))
      (cl.top.getD index 0) (cl.bottom.getD index 0)

/-- `SkyscraperValidator.is_valid_solution(board, row, col)`.  The Python body
loops `for i in range(self.clues_len)` with a loop-invariant condition, so it
returns True exactly when `clues_len ≥ 1` and row `row` and column `col` both
pass their clue check. -/
def isValidSolution (cl : Clues) (b : Board) (row col : Nat) : Bool :=
  decide (0 < cl.len) &&
    (respectCluesAxis cl b row .row && respectCluesAxis cl b col .col)

/-- `SkyscraperValidator.can_place_number(board, row, col, num)`.  The Python
function mutates its `board` argument (it writes `num` into `(row, col)` unless
the distinctness scan rejects first and never undoes the write), so the
embedding returns the result together with the board as the caller sees it
afterwards. -/
def canPlaceNumber (cl : Clues) (b : Board) (row col : Nat) (num : Int) :
    Bool × Board :=
  if (List.range cl.len).any (fun i => getCell b i col == num || getCell b row i == num) then
    (false, b)
  else
    let b2 := setCell b row col num
    (isValidSolution cl b2 row col, b2)

/-- `SkyscraperSolver._find_empty_cell`: first empty cell in row-major order. -/
def findEmptyCell (n : Nat) (b : Board) : Option (Nat × Nat) :=
  ((List.range n).flatMap (fun r => (List.range n).map (fun c => (r, c)))).find?
    (fun p => getCell b p.1 p.2 == 0)

/-- Number of empty cells of an N×N board (the measure that shrinks at each
recursive step of the search). -/
def countZeros (n : Nat) (b : Board) : Nat :=
  ((Finset.range n ×ˢ Finset.range n).filter (fun p => getCell b p.1 p.2 = 0)).card

/-- The candidate loop `for num in range(1, board_size + 1)` of
`SkyscraperSolver.search_solution`: each iteration probes a fresh copy of the
board (`can_place_number` writes `num` into the copy) and recurses through
`step` on the written copy; the answer `some none` means "this candidate list
is exhausted without a solution", `none` means the recursion ran out of fuel. -/
def searchCandidates (cl : Clues) (step : Board → Option (Option Board))
    (b : Board) (r c : Nat) : List Int → Option (Option Board)
  | [] => some none
  | num :: rest =>
    let p := canPlaceNumber cl b r c num
    if p.1 then
      match step p.2 with
      | none => none
      | some (some sol) => some (some sol)
      | some none => searchCandidates cl step b r c rest
    else searchCandidates cl step b r c rest

/-- `SkyscraperSolver.search_solution`, with explicit fuel (each recursive call
of the Python code is made on a board with one more filled cell, so
`countZeros n b + 1` units of fuel always suffice; see the termination
theorem).  The outer `none` means "out of fuel", `some none` is the Python
`None` (no solution), `some (some sol)` is a found board.  At a full board the
Python code accepts as soon as some diagonal index `i` has row `i` and column
`i` valid. -/
def searchFuel (cl : Clues) (n : Nat) : Nat → Board → Option (Option Board)
  | 0, _ => none
  | fuel + 1, b =>
    match findEmptyCell n b with
    | none =>
        some (if (List.range n).any (fun i => isValidSolution cl b i i)
              then some b else none)
    | some (r, c) =>
        searchCandidates cl (fun b2 => searchFuel cl n fuel b2) b r c
          ((List.range n).map (fun (k : Nat) => (k : Int) + 1))

/-- The "Clue from the start" section of the loop body of
`SkyscraperSolver._place_obvious_by_axis`, acting on one line of length `n`. -/
def processLineStart (n : Nat) (s : Int) (line : List Int) : List Int :=
  if s = 1 then line.set 0 (n : Int)
  else if s = (n : Int) then
    (List.range n).foldl (fun l i => l.set i ((i : Int) + 1)) line
  else line

/-- The "Clue from the end" section of the same loop body (`board[index][-1]`
is position `n - 1`). -/
def processLineEnd (n : Nat) (e : Int) (l1 : List Int) : List Int :=
  if e = 1 then l1.set (n - 1) (n : Int)
  else if e = (n : Int) then
    (List.range n).foldl (fun l i => l.set (n - 1 - i) ((i : Int) + 1)) l1
  else l1

/-- One line of the pre-fill pass `SkyscraperSolver._place_obvious_by_axis`:
the body of the per-index loop (start-clue section, then end-clue section),
acting on the values of a single line of length `n`. -/
def processLine (n : Nat) (s e : Int) (line : List Int) : List Int :=
  processLineEnd n e (processLineStart n s line)

/-- `_place_obvious_by_axis(Axis.ROW, left_clues, right_clues)`: row `index`
is rewritten by `processLine` with its left/right clues. -/
def placeObviousRowAxis (n : Nat) (left right : List Int) (b : Board) : Board :=
  (List.range n).foldl
    (fun bb idx =>
      bb.set idx (processLine n (left.getD idx 0) (right.getD idx 0) (bb.getD idx [])))
    b

/-- `_place_obvious_by_axis(Axis.COLUMN, top_clues, bottom_clues)`: writes go
across rows, cell by cell. -/
def placeObviousColAxis (n : Nat) (top bottom : List Int) (b : Board) : Board :=
  (List.range n).foldl
    (fun bb idx =>
      let s := top.getD idx 0
      let e := bottom.getD idx 0
      let b1 :=
        if s = 1 then setCell bb 0 idx (n : Int)
        else if s = (n : Int) then
          (List.range n).foldl (fun x i => setCell x i idx ((i : Int) + 1)) bb
        else bb
      if e = 1 then setCell b1 (n - 1) idx (n : Int)
      else if e = (n : Int) then
        (List.range n).foldl (fun x i => setCell x (n - 1 - i) idx ((i : Int) + 1)) b1
      else b1)
    b

/-- `SkyscraperSolver.place_obvious_numbers`: row axis first, then column
axis. -/
def placeObviousNumbers (n : Nat) (cl : Clues) (b : Board) : Board :=
  placeObviousColAxis n cl.top cl.bottom (placeObviousRowAxis n cl.left cl.right b)

/-- `BaseSolver.solve` for `SkyscraperSolver`: pre-fill, then search.  Fuel
`countZeros n b2 + 1` is sufficient by the termination theorem, so the
out-of-fuel branch is never taken. -/
def solve (cl : Clues) (n : Nat) (b : Board) : Option Board :=
  let b2 := placeObviousNumbers n cl b
  match searchFuel cl n (countZeros n b2 + 1) b2 with
  | some r => r
  | none => none

/-- The clue arrays of `solveur.py`'s `SolveBoard`: `clues_verti = [left, right]`
(one pair per row, used by `respect_clues_horiz`) and `clues_horiz =
[top, bottom]` (one pair per column, used by `respect_clues_verti`). -/
structure SClues where
  verti0 : List Int
  verti1 : List Int
  horiz0 : List Int
  horiz1 : List Int

/-- `SolveBoard.respect_clues_horiz(current_board, r)`: forward visibility
count of row `r`; if the row is full (`SolveBoard.full`), both counts must
match `clues_verti[0][r]` / `clues_verti[1][r]` exactly, otherwise only
`left <= clues_verti[0][r]`. -/
def respect_clues_horiz (cl : SClues) (n : Nat) (b : Board) (r : Nat) : Bool :=
  let row := (List.range n).map (fun i => getCell b r i)
  let left : Int := countVisible row
  if (b.getD r []).all (fun v => v != 0) then
    left == cl.verti0.getD r 0 && ((countVisible row.reverse : Int) == cl.verti1.getD r 0)
  else
    decide (left ≤ cl.verti0.getD r 0)

/-- `SolveBoard.respect_clues_verti(current_board, c)`: the column analogue,
against `clues_horiz[0][c]` / `clues_horiz[1][c]`. -/
def respect_clues_verti (cl : SClues) (n : Nat) (b : Board) (c : Nat) : Bool :=
  let col := (List.range n).map (fun j => getCell b j c)
  let top : Int := countVisible col
  if (List.range n).all (fun j => getCell b j c != 0) then
    top == cl.horiz0.getD c 0 && ((countVisible col.reverse : Int) == cl.horiz1.getD c 0)
  else
    decide (top ≤ cl.horiz0.getD c 0)

/-- `SolveBoard.is_valid(current_board, r, c, num)`.  Like
`can_place_number`, the Python method mutates the board it is handed (writing
`num` into `(r, c)` when the distinctness scan passes, and never undoing it),
so the embedding returns the result together with the caller's board after the
call. -/
def is_valid (cl : SClues) (n : Nat) (b : Board) (r c : Nat) (num : Int) :
    Bool × Board :=
  if (List.range n).any (fun i => getCell b i c == num || getCell b r i == num) then
    (false, b)
  else
    let b2 := setCell b r c num
    (respect_clues_horiz cl n b2 r && respect_clues_verti cl n b2 c, b2)

/-- The candidate loop of `SolveBoard.solve_recursive`.  The Python loop calls
`self.is_valid(current_board, r, c, num)`, which mutates `current_board`, so
the board is threaded through the iterations; on success it deep-copies the
(already written) board, writes `num` again, and makes the two consecutive
recursive calls on the same `new_board` object, so the second call receives
the board as the first call left it. -/
def solveurCandidates (cl : SClues) (n : Nat)
    (step : Board → Nat → Nat → Option Board × Board) (r c : Nat) :
    List Int → Board → Option Board × Board
  | [], b => (none, b)
  | num :: rest, b =>
    let p := is_valid cl n b r c num
    if p.1 then
      let nb := setCell p.2 r c num
      let res1 := step nb r (c + 1)
      match res1.1 with
      | some s => (some s, p.2)
      | none =>
        let res2 := step res1.2 (r + 1) c
        match res2.1 with
        | some s => (some s, p.2)
        | none => solveurCandidates cl n step r c rest p.2
    else solveurCandidates cl n step r c rest p.2

/-- `SolveBoard.solve_recursive(current_board, r, c)`, with explicit fuel.
The `r`, `c` parameters of the Python method are shadowed by
`find_empty_cell` before any use.  As with `is_valid`, the caller's board may
be mutated (at its first empty cell), so the board after the call is returned
alongside the result. -/
def solveRecursive (cl : SClues) (n : Nat) :
    Nat → Board → Nat → Nat → Option Board × Board
  | 0, b, _, _ => (none, b)
  | fuel + 1, b, _, _ =>
    match findEmptyCell n b with
    | none =>
        (if (List.range n).all
              (fun i => respect_clues_horiz cl n b i && respect_clues_verti cl n b i)
         then some b else none, b)
    | some (r, c) =>
        solveurCandidates cl n (fun b2 r2 c2 => solveRecursive cl n fuel b2 r2 c2) r c
          ((List.range n).map (fun (k : Nat) => (k : Int) + 1)) b

/-- The Latin-square property of §8 of the specification: every row and every
column contains each value of {1..N} exactly once. -/
def IsLatin (n : Nat) (b : Board) : Prop :=
  ∀ r < n, ∀ k < n,
    (((List.range n).map (fun c => getCell b r c)).count ((k : Int) + 1) = 1 ∧
     ((List.range n).map (fun j => getCell b j r)).count ((k : Int) + 1) = 1)

/-- The set of cells into which the pre-fill pass can write: a cell is forced
when some extreme clue (1 or N) of a line through it triggers a write there. -/
def ForcedCell (n : Nat) (cl : Clues) (r c : Nat) : Prop :=
  (cl.left.getD r 0 = 1 ∧ c = 0) ∨ cl.left.getD r 0 = (n : Int) ∨
  (cl.right.getD r 0 = 1 ∧ c = n - 1) ∨ cl.right.getD r 0 = (n : Int) ∨
  (cl.top.getD c 0 = 1 ∧ r = 0) ∨ cl.top.getD c 0 = (n : Int) ∨
  (cl.bottom.getD c 0 = 1 ∧ r = n - 1) ∨ cl.bottom.getD c 0 = (n : Int)

instance instForcedCellDecidable (n : Nat) (cl : Clues) (r c : Nat) :
    Decidable (ForcedCell n cl r c) := by
  unfold ForcedCell; infer_instance

instance instIsLatinDecidable (n : Nat) (b : Board) : Decidable (IsLatin n b) := by
  unfold IsLatin; infer_instance

instance instShapeDecidable (n : Nat) (b : Board) : Decidable (Shape n b) := by
  unfold Shape; infer_instance

theorem getD_set_char {α : Type} (l : List α) (i j : Nat) (a d : α) :
    (l.set i a).getD j d = if i = j ∧ i < l.length then a else l.getD j d := by
  induction l generalizing i j with
  | nil => simp
  | cons x xs ih =>
    cases i with
    | zero =>
      cases j with
      | zero => simp
      | succ j2 => simp
    | succ i2 =>
      cases j with
      | zero => simp
      | succ j2 =>
        simpa [Nat.succ_lt_succ_iff] using ih i2 j2

theorem set_eq_self_of_getD {α : Type} (l : List α) (i : Nat) (v d : α)
    (hv : l.getD i d = v) (hi : i < l.length) : l.set i v = l := by
  induction l generalizing i with
  | nil => simp at hi
  | cons x xs ih =>
    cases i with
    | zero => simp_all
    | succ i2 =>
      simp only [List.getD_cons_succ] at hv
      simp only [List.length_cons, Nat.succ_lt_succ_iff] at hi
      simp [List.set, ih i2 hv hi]

theorem length_foldl_set {β : Type} (idxs : List β) (g : β → Nat) (f : β → Int)
    (line : List Int) :
    (idxs.foldl (fun l i => l.set (g i) (f i)) line).length = line.length := by
  induction idxs generalizing line with
  | nil => rfl
  | cons i rest ih => simp [ih, List.length_set]

theorem foldl_set_asc_getD (m : Nat) (f : Nat → Int) (line : List Int) (j : Nat) (d : Int) :
    ((List.range m).foldl (fun l i => l.set i (f i)) line).getD j d =
      if j < m ∧ j < line.length then f j else line.getD j d := by
  induction m with
  | zero => simp
  | succ m2 ih =>
    rw [List.range_succ, List.foldl_append, List.foldl_cons, List.foldl_nil,
        getD_set_char, ih]
    have hlen : ((List.range m2).foldl (fun l i => l.set i (f i)) line).length
        = line.length := length_foldl_set (List.range m2) id f line
    rw [hlen]
    by_cases h1 : m2 = j
    · subst h1
      split_ifs with hA hB <;> first | rfl | (exfalso; omega)
    · have hne : ¬ (m2 = j ∧ m2 < line.length) := fun h => h1 h.1
      rw [if_neg hne]
      split_ifs with hA hB <;> first | rfl | (exfalso; omega)

theorem foldl_set_desc_getD (m n : Nat) (f : Nat → Int) (line : List Int) (j : Nat)
    (d : Int) (hm : m ≤ n) (hlen : line.length = n) :
    ((List.range m).foldl (fun l i => l.set (n - 1 - i) (f i)) line).getD j d =
      if n - m ≤ j ∧ j < n then f (n - 1 - j) else line.getD j d := by
  induction m with
  | zero => simp; omega
  | succ m2 ih =>
    rw [List.range_succ, List.foldl_append, List.foldl_cons, List.foldl_nil,
        getD_set_char]
    have hlen2 : ((List.range m2).foldl (fun l i => l.set (n - 1 - i) (f i)) line).length
        = line.length := length_foldl_set (List.range m2) (fun i => n - 1 - i) f line
    rw [hlen2, hlen, ih (by omega)]
    by_cases h1 : n - 1 - m2 = j
    · have hcond : n - 1 - m2 = j ∧ n - 1 - m2 < n := ⟨h1, by omega⟩
      rw [if_pos hcond]
      have hj2 : n - 1 - j = m2 := by omega
      have hr2 : n - (m2 + 1) ≤ j ∧ j < n := by omega
      rw [if_pos hr2, hj2]
    · have hne : ¬ (n - 1 - m2 = j ∧ n - 1 - m2 < n) := fun h => h1 h.1
      rw [if_neg hne]
      split_ifs with hA hB <;> first | rfl | (exfalso; omega)

theorem foldl_set_rows_getD (g : Nat → List Int → List Int) (idxs : List Nat)
    (hnd : idxs.Nodup) (b : Board) (r : Nat) :
    ((idxs.foldl (fun bb idx => bb.set idx (g idx (bb.getD idx []))) b).getD r []) =
      if r ∈ idxs ∧ r < b.length then g r (b.getD r []) else b.getD r [] := by
  induction idxs generalizing b with
  | nil => simp
  | cons i rest ih =>
    rw [List.foldl_cons, ih (List.Nodup.of_cons hnd)]
    have hlen : (b.set i (g i (b.getD i []))).length = b.length := List.length_set b i _
    have hni : i ∉ rest := (List.nodup_cons.mp hnd).1
    rw [hlen, getD_set_char]
    by_cases hmem : r ∈ rest
    · have hir : ¬ (i = r ∧ i < b.length) := fun h => hni (h.1 ▸ hmem)
      rw [if_neg hir]
      by_cases hb : r < b.length
      · rw [if_pos ⟨hmem, hb⟩, if_pos ⟨List.mem_cons_of_mem i hmem, hb⟩]
      · rw [if_neg (fun h => hb h.2), if_neg (fun h => hb h.2)]
    · by_cases hir : i = r
      · subst hir
        have hnotmem : ¬ (i ∈ rest ∧ i < b.length) := fun h => hmem h.1
        rw [if_neg hnotmem]
        by_cases hb : i < b.length
        · rw [if_pos ⟨rfl, hb⟩, if_pos ⟨List.mem_cons_self i rest, hb⟩]
        · rw [if_neg (fun h => hb h.2), if_neg (fun h => hb h.2)]
      · have h2 : ¬ (i = r ∧ i < b.length) := fun h => hir h.1
        have h3 : ¬ (r ∈ rest ∧ r < b.length) := fun h => hmem h.1
        have h4 : ¬ (r ∈ i :: rest ∧ r < b.length) := by
          intro h
          rcases List.mem_cons.mp h.1 with h5 | h5
          · exact hir h5.symm
          · exact hmem h5
        rw [if_neg h3, if_neg h2, if_neg h4]

theorem getCell_setCell (b : Board) (r c r2 c2 : Nat) (v : Int)
    (hr : r < b.length) (hc : c < (b.getD r []).length) :
    getCell (setCell b r c v) r2 c2 =
      if r = r2 ∧ c = c2 then v else getCell b r2 c2 := by
  unfold getCell setCell
  rw [getD_set_char]
  by_cases h1 : r = r2
  · subst h1
    rw [if_pos ⟨rfl, hr⟩, getD_set_char]
    by_cases h2 : c = c2
    · subst h2
      rw [if_pos ⟨rfl, hc⟩, if_pos ⟨rfl, rfl⟩]
    · rw [if_neg (fun h => h2 h.1), if_neg (fun h => h2 h.2)]
  · have hne : ¬ (r = r2 ∧ r < b.length) := fun h => h1 h.1
    rw [if_neg hne, if_neg (fun h => h1 h.1)]

theorem getCell_setCell_ne (b : Board) (r c r2 c2 : Nat) (v : Int)
    (h : r ≠ r2 ∨ c ≠ c2) :
    getCell (setCell b r c v) r2 c2 = getCell b r2 c2 := by
  unfold getCell setCell
  rw [getD_set_char]
  by_cases h1 : r = r2 ∧ r < b.length
  · obtain ⟨rfl, hlen⟩ := h1
    have hc2 : c ≠ c2 := h.resolve_left (fun h2 => h2 rfl)
    rw [if_pos ⟨rfl, hlen⟩, getD_set_char]
    simp [hc2]
  · rw [if_neg h1]

theorem getCell_foldl_frame {β : Type} (l : List β) (f : Board → β → Board)
    (b : Board) (r c : Nat)
    (h : ∀ bb x, x ∈ l → getCell (f bb x) r c = getCell bb r c) :
    getCell (l.foldl f b) r c = getCell b r c := by
  induction l generalizing b with
  | nil => rfl
  | cons x xs ih =>
    rw [List.foldl_cons, ih (f b x) (fun bb y hy => h bb y (List.mem_cons_of_mem x hy)),
        h b x (List.mem_cons_self x xs)]

theorem countVisibleFrom_append (m : Int) (l1 l2 : List Int) :
    countVisibleFrom m (l1 ++ l2) =
      countVisibleFrom m l1 + countVisibleFrom (l1.foldl max m) l2 := by
  induction l1 generalizing m with
  | nil => simp [countVisibleFrom]
  | cons x xs ih =>
    simp only [List.cons_append, countVisibleFrom, List.foldl_cons, List.append_eq]
    by_cases h : m < x
    · rw [if_pos h, if_pos h, ih x, max_eq_right (le_of_lt h)]
      ring
    · rw [if_neg h, if_neg h, ih m, max_eq_left (le_of_not_lt h)]

theorem countVisibleFrom_replicate_zero (m : Int) (j : Nat) (h : 0 ≤ m) :
    countVisibleFrom m (List.replicate j 0) = 0 := by
  induction j with
  | zero => rfl
  | succ j2 ih =>
    rw [List.replicate_succ]
    show (if m < 0 then countVisibleFrom 0 (List.replicate j2 0) + 1
          else countVisibleFrom m (List.replicate j2 0)) = 0
    rw [if_neg (not_lt.mpr h)]
    exact ih

theorem le_foldl_max (m : Int) (l : List Int) : m ≤ l.foldl max m := by
  induction l generalizing m with
  | nil => exact le_refl m
  | cons x xs ih => exact le_trans (le_max_left m x) (ih (max m x))

theorem countVisible_prefix_le (l1 l2 : List Int) :
    countVisible l1 ≤ countVisible (l1 ++ l2) := by
  cases l1 with
  | nil => exact Nat.zero_le _
  | cons x xs =>
    show countVisibleFrom x xs + 1 ≤ countVisibleFrom x (xs ++ l2) + 1
    rw [countVisibleFrom_append]
    omega

theorem countVisible_take_le (L : List Int) (k : Nat) :
    countVisible (L.take k) ≤ countVisible L := by
  conv_rhs => rw [← List.take_append_drop k L]
  exact countVisible_prefix_le _ _

theorem countVisible_replicate_zero_le (j : Nat) :
    countVisible (List.replicate j 0) ≤ 1 := by
  cases j with
  | zero => exact Nat.zero_le 1
  | succ j2 =>
    rw [List.replicate_succ]
    show countVisibleFrom 0 (List.replicate j2 0) + 1 ≤ 1
    rw [countVisibleFrom_replicate_zero 0 j2 le_rfl]

theorem countVisible_cons_take_zeros (x : Int) (xs : List Int) (k j : Nat)
    (hx : 0 < x) :
    countVisible ((x :: xs).take (k + 1) ++ List.replicate j 0) =
      countVisible ((x :: xs).take (k + 1)) := by
  rw [List.take_succ_cons, List.cons_append]
  show countVisibleFrom x (xs.take k ++ List.replicate j 0) + 1 =
    countVisibleFrom x (xs.take k) + 1
  rw [countVisibleFrom_append,
      countVisibleFrom_replicate_zero _ j (le_trans (by omega) (le_foldl_max x _))]

/-- C2.  For every line of integers with start and end clues, the clue check
`_respect_clues` / `respect_clues_horiz` behaves as specified: on a complete
line (no zero) it is true exactly when both directed visibility counts equal
the clues; on a partial line (some zero) it is true exactly when the forward
count is at most the start clue, and the end clue is never consulted. -/
theorem respectClues_line_modes (values : List Int) (s e e2 : Int) :
    (¬ (0 : Int) ∈ values →
      (respectClues values s e = true ↔
        ((countVisible values : Int) = s ∧ (countVisible values.reverse : Int) = e))) ∧
    ((0 : Int) ∈ values →
      respectClues values s e = respectClues values s e2 ∧
      (respectClues values s e = true ↔ (countVisible values : Int) ≤ s)) := by
  constructor
  · intro h0
    have hall : values.all (fun v => v != 0) = true := by
      rw [List.all_eq_true]
      intro v hv
      exact bne_iff_ne.mpr (fun hh => h0 (hh ▸ hv))
    simp [respectClues, hall]
  · intro h0
    have hall : values.all (fun v => v != 0) = false := by
      rw [← Bool.not_eq_true, List.all_eq_true]
      intro hforall
      have := hforall 0 h0
      simp at this
    constructor
    · simp [respectClues, hall]
    · simp [respectClues, hall]

/-- Witness for C2 at a concrete complete line. -/
theorem respectClues_line_modes_instance : respectClues [1, 2] 2 1 = true :=
  ((respectClues_line_modes [1, 2] 2 1 0).1 (by decide)).mpr (by decide)

/-- C3.  Pruning is sound on prefixes: a complete line of positive heights
that passes the complete-mode check still passes the check after any suffix
of it is blanked back to zeros. -/
theorem respectClues_prefix_sound (L : List Int) (s e : Int) (k : Nat)
    (hpos : ∀ x ∈ L, 1 ≤ x) (hc : respectClues L s e = true) :
    respectClues (L.take k ++ List.replicate (L.length - k) 0) s e = true := by
  by_cases hk : L.length ≤ k
  · rw [Nat.sub_eq_zero_of_le hk, List.replicate_zero, List.append_nil,
        List.take_of_length_le hk]
    exact hc
  · push_neg at hk
    have hall : L.all (fun v => v != 0) = true := by
      rw [List.all_eq_true]
      intro v hv
      have h1 : (1 : Int) ≤ v := hpos v hv
      exact bne_iff_ne.mpr (by omega)
    have hs : (countVisible L : Int) = s := by
      have h2 := hc
      simp [respectClues, hall, Bool.and_eq_true] at h2
      exact h2.1
    have hmem : (0 : Int) ∈ L.take k ++ List.replicate (L.length - k) 0 :=
      List.mem_append_right _ (List.mem_replicate.mpr ⟨by omega, rfl⟩)
    have hallP : (L.take k ++ List.replicate (L.length - k) 0).all
        (fun v => v != 0) = false := by
      rw [← Bool.not_eq_true, List.all_eq_true]
      intro hforall
      have := hforall 0 hmem
      simp at this
    have hcount : countVisible (L.take k ++ List.replicate (L.length - k) 0) ≤
        countVisible L := by
      cases L with
      | nil => simp at hk
      | cons x xs =>
        cases k with
        | zero =>
          rw [List.take_zero, List.nil_append]
          exact le_trans (countVisible_replicate_zero_le _)
            (by show 1 ≤ countVisibleFrom x xs + 1; omega)
        | succ k2 =>
          rw [countVisible_cons_take_zeros x xs k2 _
              (by have := hpos x (List.mem_cons_self x xs); omega)]
          exact countVisible_take_le _ _
    have hfin : (countVisible (L.take k ++ List.replicate (L.length - k) 0) : Int) ≤ s := by
      rw [← hs]
      exact_mod_cast hcount
    simp [respectClues, hallP, hfin]

/-- Witness for C3 at a concrete line and prefix. -/
theorem respectClues_prefix_sound_instance :
    respectClues ([2, 1].take 1 ++ List.replicate ([2, 1].length - 1) 0) 1 2 = true :=
  respectClues_prefix_sound [2, 1] 1 2 1 (by decide) (by decide)

theorem ext_of_getD (l1 l2 : List Int) (hl : l1.length = l2.length)
    (h : ∀ j, l1.getD j 0 = l2.getD j 0) : l1 = l2 := by
  induction l1 generalizing l2 with
  | nil =>
    cases l2 with
    | nil => rfl
    | cons y ys => simp at hl
  | cons x xs ih =>
    cases l2 with
    | nil => simp at hl
    | cons y ys =>
      have hx : x = y := h 0
      have hxs : xs = ys := ih ys (by simpa using hl) (fun j => h (j + 1))
      rw [hx, hxs]

theorem getD_map_range (n j : Nat) (f : Nat → Int) (hj : j < n) :
    ((List.range n).map f).getD j 0 = f j := by
  rw [List.getD_eq_getElem?_getD, List.getElem?_map, List.getElem?_range hj]
  rfl

theorem length_foldl_set2 {β : Type} (idxs : List β) (f : List Int → β → List Int)
    (h : ∀ l i, (f l i).length = l.length) (line : List Int) :
    (idxs.foldl f line).length = line.length := by
  induction idxs generalizing line with
  | nil => rfl
  | cons i rest ih => rw [List.foldl_cons, ih (f line i), h line i]

theorem processLineStart_length (n : Nat) (s : Int) (line : List Int) :
    (processLineStart n s line).length = line.length := by
  unfold processLineStart
  split_ifs
  · exact List.length_set line 0 _
  · exact length_foldl_set2 (List.range n) _ (fun l i => List.length_set l i _) line
  · rfl

theorem processLineEnd_length (n : Nat) (e : Int) (l1 : List Int) :
    (processLineEnd n e l1).length = l1.length := by
  unfold processLineEnd
  split_ifs
  · exact List.length_set l1 (n - 1) _
  · exact length_foldl_set2 (List.range n) (fun l i => l.set (n - 1 - i) ((i : Int) + 1))
      (fun l i => List.length_set l (n - 1 - i) _) l1
  · rfl

theorem processLine_length (n : Nat) (s e : Int) (line : List Int) :
    (processLine n s e line).length = line.length := by
  unfold processLine
  rw [processLineEnd_length, processLineStart_length]

theorem asc_foldl_eq (n : Nat) (line : List Int) (hlen : line.length = n) :
    (List.range n).foldl (fun l i => l.set i ((i : Int) + 1)) line =
      (List.range n).map (fun (i : Nat) => (i : Int) + 1) := by
  apply ext_of_getD
  · rw [length_foldl_set2 (List.range n) _ (fun l i => List.length_set l i _) line,
        List.length_map, List.length_range, hlen]
  · intro j
    by_cases hj : j < n
    · rw [foldl_set_asc_getD, if_pos ⟨hj, by omega⟩, getD_map_range n j _ hj]
    · rw [foldl_set_asc_getD, if_neg (fun h => hj h.1),
          List.getD_eq_default _ _ (by omega),
          List.getD_eq_default _ _ (by rw [List.length_map, List.length_range]; omega)]

theorem desc_foldl_eq (n : Nat) (line : List Int) (hlen : line.length = n) :
    (List.range n).foldl (fun l i => l.set (n - 1 - i) ((i : Int) + 1)) line =
      (List.range n).map (fun (j : Nat) => (n : Int) - (j : Int)) := by
  apply ext_of_getD
  · rw [length_foldl_set2 (List.range n) (fun l i => l.set (n - 1 - i) ((i : Int) + 1))
          (fun l i => List.length_set l (n - 1 - i) _) line,
        List.length_map, List.length_range, hlen]
  · intro j
    by_cases hj : j < n
    · rw [foldl_set_desc_getD n n _ line j 0 le_rfl hlen, if_pos ⟨by omega, hj⟩,
          getD_map_range n j _ hj]
      omega
    · rw [foldl_set_desc_getD n n _ line j 0 le_rfl hlen, if_neg (fun h => hj h.2),
          List.getD_eq_default _ _ (by omega),
          List.getD_eq_default _ _ (by rw [List.length_map, List.length_range]; omega)]

/-- C6 (amended).  For one line processed by the pre-fill pass: a start clue 1
puts N in the first cell; an end clue 1 puts N in the last cell; an end clue N
rewrites the line to N,N-1,...,1; a start clue N rewrites it to 1,2,...,N
provided the end clue of the same line is not also N (the end-clue section
runs second and overwrites); clues strictly between 1 and N write nothing. -/
theorem processLine_extreme_clues (n : Nat) (s e : Int) (line : List Int)
    (hlen : line.length = n) (hn : 1 ≤ n) :
    (s = 1 → (processLine n s e line).getD 0 0 = (n : Int)) ∧
    (e = 1 → (processLine n s e line).getD (n - 1) 0 = (n : Int)) ∧
    (s = (n : Int) → e ≠ (n : Int) →
      processLine n s e line = (List.range n).map (fun (i : Nat) => (i : Int) + 1)) ∧
    (e = (n : Int) →
      processLine n s e line = (List.range n).map (fun (j : Nat) => (n : Int) - (j : Int))) ∧
    (1 < s → s < (n : Int) → 1 < e → e < (n : Int) → processLine n s e line = line) := by
  have hstartlen : (processLineStart n s line).length = n := by
    rw [processLineStart_length, hlen]
  refine ⟨?_, ?_, ?_, ?_, ?_⟩
  · intro hs1
    have hl1 : (processLineStart n s line).getD 0 0 = (n : Int) := by
      unfold processLineStart
      rw [if_pos hs1, getD_set_char, if_pos ⟨rfl, by omega⟩]
    unfold processLine processLineEnd
    split_ifs with he1 hen
    · rw [getD_set_char]
      by_cases h0 : n - 1 = 0
      · rw [if_pos ⟨h0, by rw [hstartlen]; omega⟩]
      · rw [if_neg (fun h => h0 h.1)]
        exact hl1
    · rw [desc_foldl_eq n _ hstartlen, getD_map_range n 0 _ (by omega)]
      omega
    · exact hl1
  · intro he1
    unfold processLine processLineEnd
    rw [if_pos he1, getD_set_char, if_pos ⟨rfl, by rw [hstartlen]; omega⟩]
  · intro hsn hen
    by_cases hs1 : s = 1
    · have hn1 : n = 1 := by omega
      subst hn1
      have he1x : ¬ e = 1 := by simpa using hen
      unfold processLine processLineEnd processLineStart
      rw [if_neg he1x, if_neg hen, if_pos hs1]
      apply ext_of_getD
      · rw [List.length_set, hlen, List.length_map, List.length_range]
      · intro j
        cases j with
        | zero =>
          rw [getD_set_char, if_pos ⟨rfl, by omega⟩, getD_map_range 1 0 _ (by omega)]
          omega
        | succ j2 =>
          rw [getD_set_char, if_neg (fun h => by omega),
              List.getD_eq_default _ _ (by omega),
              List.getD_eq_default _ _
                (by rw [List.length_map, List.length_range]; omega)]
    · have hl1 : processLineStart n s line =
          (List.range n).map (fun (i : Nat) => (i : Int) + 1) := by
        unfold processLineStart
        rw [if_neg hs1, if_pos hsn, asc_foldl_eq n line hlen]
      unfold processLine processLineEnd
      rw [hl1]
      by_cases he1 : e = 1
      · rw [if_pos he1]
        apply set_eq_self_of_getD
        · rw [getD_map_range n (n - 1) _ (by omega)]
          omega
        · rw [List.length_map, List.length_range]; omega
      · rw [if_neg he1, if_neg hen]
  · intro hen
    by_cases he1 : e = 1
    · have hn1 : n = 1 := by omega
      subst hn1
      unfold processLine processLineEnd
      rw [if_pos he1]
      apply ext_of_getD
      · rw [List.length_set, processLineStart_length, hlen, List.length_map,
            List.length_range]
      · intro j
        cases j with
        | zero =>
          rw [getD_set_char,
              if_pos ⟨rfl, by rw [processLineStart_length, hlen]; omega⟩,
              getD_map_range 1 0 _ (by omega)]
          omega
        | succ j2 =>
          rw [getD_set_char, if_neg (fun h => by omega),
              List.getD_eq_default _ _
                (by rw [processLineStart_length, hlen]; omega),
              List.getD_eq_default _ _
                (by rw [List.length_map, List.length_range]; omega)]
    · unfold processLine processLineEnd
      rw [if_neg he1, if_pos hen, desc_foldl_eq n _ hstartlen]
  · intro h1 h2 h3 h4
    unfold processLine processLineEnd processLineStart
    rw [if_neg (by omega : ¬ e = 1), if_neg (by omega : ¬ e = (n : Int)),
        if_neg (by omega : ¬ s = 1), if_neg (by omega : ¬ s = (n : Int))]

/-- Witness for C6 (amended) at a concrete line: start clue N with a neutral
end clue pre-fills 1,2,3. -/
theorem processLine_extreme_clues_instance :
    processLine 3 3 2 [0, 0, 0] = (List.range 3).map (fun (i : Nat) => (i : Int) + 1) :=
  (processLine_extreme_clues 3 3 2 [0, 0, 0] rfl (by decide)).2.2.1 (by decide) (by decide)

/-- C6 counterexample.  On a 3×3 board with left clue 3 = N and right clue
also 3 for row 0 (and neutral clues elsewhere), the pre-fill pass leaves row 0
as [3, 2, 1], not [1, 2, 3] as the claim requires for a start-side clue N. -/
theorem placeObvious_startN_row_not_ascending :
    ((⟨[3, 2, 2], [2, 2, 2], [3, 2, 2], [2, 2, 2]⟩ : Clues).left.getD 0 0 =
      ((3 : Nat) : Int)) ∧
    (placeObviousNumbers 3 ⟨[3, 2, 2], [2, 2, 2], [3, 2, 2], [2, 2, 2]⟩
        [[0, 0, 0], [0, 0, 0], [0, 0, 0]]).getD 0 [] = [3, 2, 1] := by
  decide

theorem rowAxis_getD (n : Nat) (left right : List Int) (b : Board) (r : Nat) :
    (placeObviousRowAxis n left right b).getD r [] =
      if r ∈ List.range n ∧ r < b.length
      then processLine n (left.getD r 0) (right.getD r 0) (b.getD r [])
      else b.getD r [] :=
  foldl_set_rows_getD
    (fun idx row => processLine n (left.getD idx 0) (right.getD idx 0) row)
    (List.range n) (List.nodup_range n) b r

theorem processLine_getD_frame (n : Nat) (s e : Int) (line : List Int) (c : Nat)
    (h1 : s = 1 → c ≠ 0) (h2 : s ≠ (n : Int)) (h3 : e = 1 → c ≠ n - 1)
    (h4 : e ≠ (n : Int)) :
    (processLine n s e line).getD c 0 = line.getD c 0 := by
  have hstart : (processLineStart n s line).getD c 0 = line.getD c 0 := by
    unfold processLineStart
    by_cases hs1 : s = 1
    · rw [if_pos hs1, getD_set_char, if_neg (fun h => h1 hs1 h.1.symm)]
    · rw [if_neg hs1, if_neg h2]
  unfold processLine processLineEnd
  by_cases he1 : e = 1
  · rw [if_pos he1, getD_set_char, if_neg (fun h => h3 he1 h.1.symm)]
    exact hstart
  · rw [if_neg he1, if_neg h4]
    exact hstart

theorem colAxis_getCell_frame (n : Nat) (top bottom : List Int) (b : Board)
    (r c : Nat)
    (h1 : top.getD c 0 = 1 → r ≠ 0) (h2 : top.getD c 0 ≠ (n : Int))
    (h3 : bottom.getD c 0 = 1 → r ≠ n - 1) (h4 : bottom.getD c 0 ≠ (n : Int)) :
    getCell (placeObviousColAxis n top bottom b) r c = getCell b r c := by
  unfold placeObviousColAxis
  apply getCell_foldl_frame
  intro bb idx hidx
  dsimp only
  by_cases hic : idx = c
  · subst hic
    have hb1 : ∀ bb2 : Board,
        getCell (if top.getD idx 0 = 1 then setCell bb2 0 idx ((n : Nat) : Int)
                 else if top.getD idx 0 = (n : Int) then
                   (List.range n).foldl (fun x i => setCell x i idx ((i : Int) + 1)) bb2
                 else bb2) r idx = getCell bb2 r idx := by
      intro bb2
      by_cases hs1 : top.getD idx 0 = 1
      · rw [if_pos hs1]
        exact getCell_setCell_ne _ _ _ _ _ _ (Or.inl (fun h => h1 hs1 h.symm))
      · rw [if_neg hs1, if_neg h2]
    by_cases he1 : bottom.getD idx 0 = 1
    · rw [if_pos he1,
          getCell_setCell_ne _ _ _ _ _ _ (Or.inl (fun h => h3 he1 h.symm)), hb1 bb]
    · rw [if_neg he1, if_neg h4, hb1 bb]
  · have hb1 : ∀ bb2 : Board,
        getCell (if top.getD idx 0 = 1 then setCell bb2 0 idx ((n : Nat) : Int)
                 else if top.getD idx 0 = (n : Int) then
                   (List.range n).foldl (fun x i => setCell x i idx ((i : Int) + 1)) bb2
                 else bb2) r c = getCell bb2 r c := by
      intro bb2
      split_ifs
      · exact getCell_setCell_ne _ _ _ _ _ _ (Or.inr (fun h => hic h))
      · apply getCell_foldl_frame
        intro bb3 i hi
        exact getCell_setCell_ne _ _ _ _ _ _ (Or.inr (fun h => hic h))
      · rfl
    by_cases he1 : bottom.getD idx 0 = 1
    · rw [if_pos he1, getCell_setCell_ne _ _ _ _ _ _ (Or.inr (fun h => hic h)),
          hb1 bb]
    · by_cases hen : bottom.getD idx 0 = (n : Int)
      · rw [if_neg he1, if_pos hen,
            getCell_foldl_frame _ _ _ _ _
              (fun bb3 i hi => getCell_setCell_ne _ _ _ _ _ _ (Or.inr (fun h => hic h))),
            hb1 bb]
      · rw [if_neg he1, if_neg hen]
        exact hb1 bb

/-- C7 (amended).  The pre-fill pass can only write into cells forced by an
extreme clue (1 or N on a line through the cell): every other cell — in
particular every caller-supplied given that no extreme clue touches — keeps
its exact value.  A nonzero given lying where an extreme clue forces a value
may be overwritten (see the counterexample). -/
theorem placeObvious_frame_unforced (n : Nat) (cl : Clues) (b : Board) (r c : Nat)
    (hs : Shape n b) (hr : r < n) (hc : c < n) (hf : ¬ ForcedCell n cl r c) :
    getCell (placeObviousNumbers n cl b) r c = getCell b r c := by
  unfold ForcedCell at hf
  push_neg at hf
  obtain ⟨hf1, hf2, hf3, hf4, hf5, hf6, hf7, hf8⟩ := hf
  unfold placeObviousNumbers
  rw [colAxis_getCell_frame n cl.top cl.bottom _ r c hf5 hf6 hf7 hf8]
  unfold getCell
  rw [rowAxis_getD, if_pos ⟨List.mem_range.mpr hr, by rw [hs.1]; exact hr⟩]
  exact processLine_getD_frame n _ _ _ c hf1 hf2 hf3 hf4

/-- Witness for C7 (amended): with all clues strictly between 1 and N nothing
is forced, and a caller-supplied 7 at (1,1) survives the pass. -/
theorem placeObvious_frame_instance :
    getCell (placeObviousNumbers 3 ⟨[2, 2, 2], [2, 2, 2], [2, 2, 2], [2, 2, 2]⟩
        [[0, 0, 0], [0, 7, 0], [0, 0, 0]]) 1 1 =
      getCell [[0, 0, 0], [0, 7, 0], [0, 0, 0]] 1 1 :=
  placeObvious_frame_unforced 3 ⟨[2, 2, 2], [2, 2, 2], [2, 2, 2], [2, 2, 2]⟩
    [[0, 0, 0], [0, 7, 0], [0, 0, 0]] 1 1 (by decide) (by decide) (by decide)
    (by decide)

/-- C7 counterexample.  A caller-supplied nonzero given 1 at cell (0,0) is
overwritten with the different value 3 by the pre-fill pass when the left clue
of row 0 is 1 (which forces N = 3 into that cell). -/
theorem placeObvious_overwrites_given :
    getCell [[1, 0, 0], [0, 0, 0], [0, 0, 0]] 0 0 = 1 ∧
    getCell (placeObviousNumbers 3 ⟨[1, 2, 2], [2, 2, 2], [2, 2, 2], [2, 2, 2]⟩
        [[1, 0, 0], [0, 0, 0], [0, 0, 0]]) 0 0 = 3 := by
  decide

theorem findEmptyCell_some (n : Nat) (b : Board) (r c : Nat)
    (h : findEmptyCell n b = some (r, c)) :
    r < n ∧ c < n ∧ getCell b r c = 0 := by
  unfold findEmptyCell at h
  have hmem := List.mem_of_find?_eq_some h
  have hp := List.find?_some h
  simp only [List.mem_flatMap, List.mem_map, List.mem_range] at hmem
  obtain ⟨r2, hr2, c2, hc2, heq⟩ := hmem
  obtain ⟨rfl, rfl⟩ := Prod.mk.injEq r2 c2 r c ▸ heq
  simp only [beq_iff_eq] at hp
  exact ⟨hr2, hc2, hp⟩

theorem shape_setCell (n : Nat) (b : Board) (r c : Nat) (v : Int)
    (hs : Shape n b) : Shape n (setCell b r c v) := by
  obtain ⟨h1, h2⟩ := hs
  constructor
  · rw [setCell, List.length_set, h1]
  · intro r2 hr2
    rw [setCell, getD_set_char]
    by_cases h : r = r2 ∧ r < b.length
    · rw [if_pos h, List.length_set]
      obtain ⟨heq, -⟩ := h
      subst heq
      exact h2 _ hr2
    · rw [if_neg h]
      exact h2 r2 hr2

theorem countZeros_setCell_lt (n : Nat) (b : Board) (r c : Nat) (num : Int)
    (hs : Shape n b) (hr : r < n) (hc : c < n) (h0 : getCell b r c = 0)
    (hnum : num ≠ 0) :
    countZeros n (setCell b r c num) < countZeros n b := by
  have hrb : r < b.length := by rw [hs.1]; exact hr
  have hcb : c < (b.getD r []).length := by rw [hs.2 r hr]; exact hc
  unfold countZeros
  apply Finset.card_lt_card
  rw [Finset.ssubset_iff_of_subset]
  · refine ⟨(r, c), ?_, ?_⟩
    · exact Finset.mem_filter.mpr
        ⟨Finset.mem_product.mpr ⟨Finset.mem_range.mpr hr, Finset.mem_range.mpr hc⟩, h0⟩
    · intro hmem
      have := (Finset.mem_filter.mp hmem).2
      rw [getCell_setCell b r c r c num hrb hcb, if_pos ⟨rfl, rfl⟩] at this
      exact hnum this
  · intro p hp
    have ⟨hp1, hp2⟩ := Finset.mem_filter.mp hp
    refine Finset.mem_filter.mpr ⟨hp1, ?_⟩
    rw [getCell_setCell b r c p.1 p.2 num hrb hcb] at hp2
    by_cases hpc : r = p.1 ∧ c = p.2
    · rw [if_pos hpc] at hp2
      exact absurd hp2 hnum
    · rwa [if_neg hpc] at hp2

theorem countZeros_le (n : Nat) (b : Board) : countZeros n b ≤ n * n := by
  unfold countZeros
  calc ((Finset.range n ×ˢ Finset.range n).filter
          (fun p => getCell b p.1 p.2 = 0)).card
      ≤ (Finset.range n ×ˢ Finset.range n).card := Finset.card_filter_le _ _
    _ = n * n := by rw [Finset.card_product, Finset.card_range]

theorem canPlaceNumber_true_snd (cl : Clues) (b : Board) (row col : Nat)
    (num : Int) (h : (canPlaceNumber cl b row col num).1 = true) :
    (canPlaceNumber cl b row col num).2 = setCell b row col num := by
  unfold canPlaceNumber at *
  by_cases hany : (List.range cl.len).any
      (fun i => getCell b i col == num || getCell b row i == num)
  · rw [if_pos hany] at h
    exact absurd h (by simp)
  · rw [if_neg hany]

theorem searchCandidates_isSome (cl : Clues) (n fuel : Nat) (b : Board)
    (r c : Nat) (step : Board → Option (Option Board))
    (hstep : ∀ b2, Shape n b2 → countZeros n b2 < fuel → (step b2).isSome = true)
    (hs : Shape n b) (hz : countZeros n b ≤ fuel) (hr : r < n) (hc : c < n)
    (h0 : getCell b r c = 0) :
    ∀ nums : List Int, (∀ num ∈ nums, num ≠ 0) →
      (searchCandidates cl step b r c nums).isSome = true := by
  intro nums
  induction nums with
  | nil => intro _; rfl
  | cons num rest ih =>
    intro hnum
    rw [searchCandidates]
    by_cases hp : (canPlaceNumber cl b r c num).1
    · rw [if_pos hp]
      have hb2 := canPlaceNumber_true_snd cl b r c num hp
      have hstepb : (step (canPlaceNumber cl b r c num).2).isSome = true := by
        apply hstep
        · rw [hb2]
          exact shape_setCell n b r c num hs
        · rw [hb2]
          calc countZeros n (setCell b r c num) < countZeros n b :=
                countZeros_setCell_lt n b r c num hs hr hc h0
                  (hnum num (List.mem_cons_self num rest))
            _ ≤ fuel := hz
      cases hstepres : step (canPlaceNumber cl b r c num).2 with
      | none => rw [hstepres] at hstepb; exact absurd hstepb (by simp)
      | some res =>
        cases res with
        | none => exact ih (fun x hx => hnum x (List.mem_cons_of_mem num hx))
        | some sol => rfl
    · rw [if_neg hp]
      exact ih (fun x hx => hnum x (List.mem_cons_of_mem num hx))

theorem searchFuel_isSome (cl : Clues) (n : Nat) :
    ∀ fuel b, Shape n b → countZeros n b < fuel →
      (searchFuel cl n fuel b).isSome = true := by
  intro fuel
  induction fuel with
  | zero => intro b _ h; exact absurd h (Nat.not_lt_zero _)
  | succ f ih =>
    intro b hs hz
    rw [searchFuel]
    cases hfe : findEmptyCell n b with
    | none => rfl
    | some rc =>
      obtain ⟨r, c⟩ := rc
      obtain ⟨hr, hc, h0⟩ := findEmptyCell_some n b r c hfe
      apply searchCandidates_isSome cl n f b r c _
        (fun b2 hs2 hz2 => ih b2 hs2 hz2) hs (by omega) hr hc h0
      intro num hnum
      simp only [List.mem_map, List.mem_range] at hnum
      obtain ⟨k, -, rfl⟩ := hnum
      omega

/-- C8.  The recursive search terminates on every N×N board: fuel exceeding
the number of empty cells is always sufficient (the search never reaches the
out-of-fuel branch, because each recursive call strictly decreases the number
of empty cells), and that number is bounded by N². -/
theorem search_terminates (cl : Clues) (n : Nat) (b : Board) (fuel : Nat)
    (hs : Shape n b) (hf : countZeros n b < fuel) :
    (searchFuel cl n fuel b).isSome = true ∧ countZeros n b ≤ n * n :=
  ⟨searchFuel_isSome cl n fuel b hs hf, countZeros_le n b⟩

/-- Witness for C8 on the empty 2×2 board. -/
theorem search_terminates_instance :
    (searchFuel ⟨[1, 2], [1, 2], [2, 1], [2, 1]⟩ 2 5 [[0, 0], [0, 0]]).isSome = true ∧
      countZeros 2 [[0, 0], [0, 0]] ≤ 2 * 2 :=
  search_terminates ⟨[1, 2], [1, 2], [2, 1], [2, 1]⟩ 2 [[0, 0], [0, 0]] 5
    (by decide) (by decide)

/-- C1 (code bug).  On the full 2×2 board [[1,2],[2,1]] with clues left=[2,2],
top=[2,2], right=[1,1], bottom=[1,1] the search accepts the board — row 0 and
column 0 pass their clue checks — even though row 1 fails its own check: the
leaf test of `search_solution` accepts as soon as one diagonal index `i` has
row `i` and column `i` valid, instead of requiring every row and column. -/
theorem search_accepts_board_with_invalid_row :
    searchFuel ⟨[2, 2], [2, 2], [1, 1], [1, 1]⟩ 2 1 [[1, 2], [2, 1]] =
      some (some [[1, 2], [2, 1]]) ∧
    respectCluesAxis ⟨[2, 2], [2, 2], [1, 1], [1, 1]⟩ [[1, 2], [2, 1]] 1 .row =
      false := by
  decide

/-- C4 (code bug).  `can_place_number` (algorithm.py) and `is_valid`
(solveur.py) mutate the board they are handed: probing value 1 at the empty
cell (0,0) of the all-empty 2×2 board leaves that cell set to 1 after the
call returns. -/
theorem canPlace_mutates_caller_board :
    getCell (canPlaceNumber ⟨[1, 1], [1, 1], [1, 1], [1, 1]⟩
        [[0, 0], [0, 0]] 0 0 1).2 0 0 = 1 ∧
    getCell (is_valid ⟨[1, 1], [1, 1], [1, 1], [1, 1]⟩ 2
        [[0, 0], [0, 0]] 0 0 1).2 0 0 = 1 ∧
    getCell [[0, 0], [0, 0]] 0 0 = 0 := by
  decide

/-- C5 (code bug).  With every clue equal to 2, the solver returns the full
initial board [[1,2,1],[2,3,2],[1,2,1]] as a solution — every line shows
exactly two skyscrapers from each side, so the terminal clue check passes —
yet the board is not a Latin square (row 0 holds the value 1 twice and never
holds 3). -/
theorem solver_returns_non_latin_board :
    solve ⟨[2, 2, 2], [2, 2, 2], [2, 2, 2], [2, 2, 2]⟩ 3
        [[1, 2, 1], [2, 3, 2], [1, 2, 1]] =
      some [[1, 2, 1], [2, 3, 2], [1, 2, 1]] ∧
    ¬ IsLatin 3 [[1, 2, 1], [2, 3, 2], [1, 2, 1]] := by
  decide

/-- C9 (code bug).  There is no input validation: with every clue equal to 5,
far outside [1, N] = [1, 2], the solver silently runs the search and returns
the ordinary no-solution signal, indistinguishable from an unsatisfiable
puzzle — no usage error is ever raised. -/
theorem solve_searches_out_of_range_clues :
    solve ⟨[5, 5], [5, 5], [5, 5], [5, 5]⟩ 2 [[0, 0], [0, 0]] = none := by
  decide

/-- C10 (amended, first half).  `solve_recursive` ignores its row and column
arguments: they are shadowed by `find_empty_cell` before any use, so the
result and the final board state are identical for any argument pairs. -/
theorem solveRecursive_ignores_row_col_args (cl : SClues) (n fuel : Nat)
    (b : Board) (r c r2 c2 : Nat) :
    solveRecursive cl n fuel b r c = solveRecursive cl n fuel b r2 c2 := by
  cases fuel <;> rfl

/-- C10 counterexample (second half of the claim fails).  Because `is_valid`
mutates the board object shared by the two consecutive recursive calls, a
first call can return no solution while leaving the board changed (cell (0,0)
holds the residue of the last distinctness-passing candidate), and the second
consecutive call, run on that changed board, finds a solution. -/
theorem solveRecursive_second_call_finds_solution :
    (solveRecursive ⟨[2, 1, 3, 2], [2, 3, 1, 2], [2, 1, 3, 2], [2, 3, 1, 2]⟩ 4 20
        [[0, 0, 2, 3], [4, 0, 0, 0], [0, 0, 0, 0], [0, 0, 0, 0]] 0 1).1 = none ∧
    (solveRecursive ⟨[2, 1, 3, 2], [2, 3, 1, 2], [2, 1, 3, 2], [2, 3, 1, 2]⟩ 4 20
        [[0, 0, 2, 3], [4, 0, 0, 0], [0, 0, 0, 0], [0, 0, 0, 0]] 0 1).2 ≠
      [[0, 0, 2, 3], [4, 0, 0, 0], [0, 0, 0, 0], [0, 0, 0, 0]] ∧
    (solveRecursive ⟨[2, 1, 3, 2], [2, 3, 1, 2], [2, 1, 3, 2], [2, 3, 1, 2]⟩ 4 20
        (solveRecursive ⟨[2, 1, 3, 2], [2, 3, 1, 2], [2, 1, 3, 2], [2, 3, 1, 2]⟩ 4 20
          [[0, 0, 2, 3], [4, 0, 0, 0], [0, 0, 0, 0], [0, 0, 0, 0]] 0 1).2 1 0).1 =
      some [[1, 4, 2, 3], [4, 1, 3, 2], [2, 3, 1, 4], [3, 2, 4, 1]] := by
  decide
